import Mathlib

/-!
Verification development for the voxel-rs client core.

The Rust source is shallowly embedded: `i64` becomes `ℤ`, `u8`/`u32`/`u64`
become `ℕ` with explicit wrap-around (`% 256`) where the source casts,
and `f64` is modelled by `ℝ`, with the `f64 as i64` cast modelled as
truncation toward zero.  Stateful methods become functions returning the
updated state.  Definitions follow `src/main.rs`, `src/sim/chunk/pos.rs`,
`src/sim/player/mod.rs` and `src/client/input/mod.rs`; parts of the
crate that are only referenced from those files (the `sim::chunk`
registry, messages, config and ticker) are modelled from the spec and
marked as such.
-/

/-- `CHUNK_SIZE` constant from `src/main.rs` (line 5). -/
def CHUNK_SIZE : ℕ := 32

/-- Rust `f64 as i64` cast: truncation toward zero (floor for nonnegative
values, ceiling for negative ones). -/
noncomputable def f64AsI64 (v : ℝ) : ℤ :=
  if 0 ≤ v then ⌊v⌋ else ⌈v⌉

/-- Rust `i64 as u8` cast: wrap-around modulo `2^8`. -/
def i64AsU8 (v : ℤ) : ℕ :=
  (v % 256).toNat

/-- `WorldPos` from `src/sim/chunk/pos.rs`: a `Vector3<f64>`. -/
structure WorldPos where
  x : ℝ
  y : ℝ
  z : ℝ

/-- `BlockPos` from `src/sim/chunk/pos.rs`: three `i64` coordinates. -/
structure BlockPos where
  x : ℤ
  y : ℤ
  z : ℤ
deriving DecidableEq

/-- `ChunkPos` from `src/sim/chunk/pos.rs`: three `i64` coordinates. -/
structure ChunkPos where
  x : ℤ
  y : ℤ
  z : ℤ
deriving DecidableEq

/-- `InnerChunkPos` from `src/sim/chunk/pos.rs`: three `u8` coordinates. -/
structure InnerChunkPos where
  x : ℕ
  y : ℕ
  z : ℕ
deriving DecidableEq

/-- `InnerBlockPos` from `src/sim/chunk/pos.rs`: a `Vector3<f64>`. -/
structure InnerBlockPos where
  x : ℝ
  y : ℝ
  z : ℝ

/-- `SubIndex<BlockPos> for WorldPos`, method `high` (pos.rs lines 32-34):
each component is cast with `as i64`. -/
noncomputable def WorldPos.high (w : WorldPos) : BlockPos :=
  ⟨f64AsI64 w.x, f64AsI64 w.y, f64AsI64 w.z⟩

/-- `SubIndex<BlockPos> for WorldPos`, method `low` (pos.rs lines 36-44):
the remainder after subtracting `high` componentwise. -/
noncomputable def WorldPos.low (w : WorldPos) : InnerBlockPos :=
  ⟨w.x - ((w.high).x : ℝ), w.y - ((w.high).y : ℝ), w.z - ((w.high).z : ℝ)⟩

/-- `SubIndex<ChunkPos> for BlockPos`, method `high` (pos.rs lines 90-96):
componentwise `div_floor` by `CHUNK_SIZE as i64`. -/
def BlockPos.high (b : BlockPos) : ChunkPos :=
  ⟨b.x.fdiv (CHUNK_SIZE : ℤ), b.y.fdiv (CHUNK_SIZE : ℤ), b.z.fdiv (CHUNK_SIZE : ℤ)⟩

/-- `SubIndex<ChunkPos> for BlockPos`, method `low` (pos.rs lines 98-104):
componentwise `(x as u8) % (CHUNK_SIZE as u8)`. -/
def BlockPos.low (b : BlockPos) : InnerChunkPos :=
  ⟨i64AsU8 b.x % CHUNK_SIZE, i64AsU8 b.y % CHUNK_SIZE, i64AsU8 b.z % CHUNK_SIZE⟩

/-- `ChunkPos::orthogonal_dist` (pos.rs lines 125-131): fold of
`i64::max` over the absolute componentwise differences, starting from 0,
with the final `as u64` cast. -/
def ChunkPos.orthogonal_dist (a other : ChunkPos) : ℕ :=
  (max (max (max 0 |other.x - a.x|) |other.y - a.y|) |other.z - a.z|).toNat

/-- The mathematical Chebyshev distance `max(|dx|,|dy|,|dz|)` the spec
describes, stated independently of `orthogonal_dist`. -/
def chebyshevDist (a b : ChunkPos) : ℕ :=
  max (b.x - a.x).natAbs (max (b.y - a.y).natAbs (b.z - a.z).natAbs)

/-- `PlayerPos` from `src/sim/player/mod.rs`: a `[f64; 3]`. -/
structure PlayerPos where
  x : ℝ
  y : ℝ
  z : ℝ

/-- One component of `PlayerPos::chunk_pos` (player/mod.rs lines 192-198),
applied to the already-truncated `i64` coordinate: Rust `/` is truncating
division and `%` the truncating remainder. -/
def chunkCoordOf (t : ℤ) : ℤ :=
  t.tdiv (CHUNK_SIZE : ℤ) - (if t.tmod (CHUNK_SIZE : ℤ) < 0 then 1 else 0)

/-- `PlayerPos::chunk_pos` (player/mod.rs lines 189-201): truncate each
`f64` component with `as i64`, then truncating-divide by `CHUNK_SIZE`
with a sign correction when the truncating remainder is negative. -/
noncomputable def PlayerPos.chunk_pos (p : PlayerPos) : ChunkPos :=
  ⟨chunkCoordOf (f64AsI64 p.x), chunkCoordOf (f64AsI64 p.y), chunkCoordOf (f64AsI64 p.z)⟩

/-- Modelled from the spec: `InnerChunkPos::from_coords` (called by
`PlayerPos::inner_chunk_pos`, player/mod.rs line 203) lives in
`sim/chunk/mod.rs`, which is not under `src/`.  Per the spec, the inner
chunk position of a position is the block's position within its chunk,
each component in `[0, CHUNK_SIZE)`: the floor-remainder modulo
`CHUNK_SIZE` of the truncated integer coordinate. -/
noncomputable def PlayerPos.inner_chunk_pos (p : PlayerPos) : InnerChunkPos :=
  ⟨(f64AsI64 p.x % (CHUNK_SIZE : ℤ)).toNat,
   (f64AsI64 p.y % (CHUNK_SIZE : ℤ)).toNat,
   (f64AsI64 p.z % (CHUNK_SIZE : ℤ)).toNat⟩

/-- `BlockId` from the `block` module: a numeric block identifier,
`0` being air. -/
abbrev BlockId := ℕ

/-- Modelled from the spec: the chunk states of the `sim::chunk`
registry (`sim/chunk/mod.rs` is not under `src/`).  The spec names a
`Generating` state and an `Incomplete` state for chunks the player may
not enter, besides fully generated chunks carrying block contents. -/
inductive ChunkState where
  | Generating
  | Incomplete
  | Generated (blocks : InnerChunkPos → BlockId)

/-- Modelled from the spec: the `ChunkMap` registry, a mapping from
`ChunkPos` to chunk state (`sim/chunk/mod.rs` is not under `src/`),
embedded as an association list. -/
structure ChunkMap where
  entries : List (ChunkPos × ChunkState)

/-- Modelled from the spec: key membership in the registry
(`ChunkMap::contains_key`). -/
def ChunkMap.contains_key (m : ChunkMap) (c : ChunkPos) : Bool :=
  m.entries.any (fun e => decide (e.1 = c))

/-- Modelled from the spec: registry lookup (`ChunkMap::get`). -/
def ChunkMap.get (m : ChunkMap) (c : ChunkPos) : Option ChunkState :=
  (m.entries.find? (fun e => decide (e.1 = c))).map Prod.snd

/-- Modelled from the spec: writing one block inside a generated chunk;
chunks without contents are unchanged. -/
def ChunkState.set_block : ChunkState → InnerChunkPos → BlockId → ChunkState
  | ChunkState.Generated f, i, b => ChunkState.Generated (fun j => if j = i then b else f j)
  | s, _, _ => s

/-- Modelled from the spec: `ChunkMap::set` writes block `b` at inner
position `i` of the chunk at `c` (the optimistic local block edit);
keys and all other chunks are unchanged. -/
def ChunkMap.set (m : ChunkMap) (c : ChunkPos) (i : InnerChunkPos) (b : BlockId) : ChunkMap :=
  ⟨m.entries.map (fun e => if e.1 = c then (e.1, ChunkState.set_block e.2 i b) else e)⟩

/-- Whether an optional chunk state matches `ChunkState::Generating`,
as the `if let` pattern in `Player::tick` does. -/
def isGenerating : Option ChunkState → Bool
  | some ChunkState.Generating => true
  | _ => false

/-- `Config` keys (the `config` module is not under `src/`; fields are
the keys the spec lists and the embedded source reads). -/
structure Config where
  tick_rate : ℕ
  render_distance : ℕ
  player_speed : ℝ
  ctrl_speedup : ℝ

/-- `PlayerKey` from `src/sim/player/mod.rs` (lines 21-30). -/
inductive PlayerKey where
  | Forward
  | Left
  | Backward
  | Right
  | Up
  | Down
  | Control
  | Hit

/-- Rust discriminant of `PlayerKey` (the `key as u32` cast). -/
def PlayerKey.addr : PlayerKey → ℕ
  | PlayerKey.Forward => 0
  | PlayerKey.Left => 1
  | PlayerKey.Backward => 2
  | PlayerKey.Right => 3
  | PlayerKey.Up => 4
  | PlayerKey.Down => 5
  | PlayerKey.Control => 6
  | PlayerKey.Hit => 7

/-- `PlayerControls` (player/mod.rs lines 34-36): a `u8` bitmask. -/
structure PlayerControls where
  keys : ℕ

/-- `PlayerControls::key_bitmap` (player/mod.rs lines 39-43), with the
`as u8` wrap-around. -/
def PlayerControls.key_bitmap (addr : ℕ) : PlayerControls :=
  ⟨(1 <<< addr) % 256⟩

/-- `PlayerControls::get_bitmap` (player/mod.rs lines 44-46). -/
def PlayerControls.get_bitmap (pc : PlayerControls) (addr : ℕ) : Bool :=
  decide (pc.keys &&& ((1 <<< addr) % 256) > 0)

/-- `PlayerControls::none` (player/mod.rs lines 48-50). -/
def PlayerControls.noneSet : PlayerControls :=
  ⟨0⟩

/-- `PlayerControls::pressed` (player/mod.rs lines 52-54). -/
def PlayerControls.pressed (pc : PlayerControls) (key : PlayerKey) : Bool :=
  pc.get_bitmap key.addr

/-- `From<PlayerKey> for PlayerControls` (player/mod.rs lines 64-68). -/
def PlayerControls.ofKey (key : PlayerKey) : PlayerControls :=
  PlayerControls.key_bitmap key.addr

/-- A `Vector3<f64>`, as used for `Player::pos`. -/
structure Vec3 where
  x : ℝ
  y : ℝ
  z : ℝ

/-- Componentwise vector addition. -/
noncomputable def Vec3.add (a b : Vec3) : Vec3 :=
  ⟨a.x + b.x, a.y + b.y, a.z + b.z⟩

/-- Scalar-times-vector multiplication. -/
noncomputable def Vec3.smul (c : ℝ) (v : Vec3) : Vec3 :=
  ⟨c * v.x, c * v.y, c * v.z⟩

/-- Vector-times-scalar multiplication. -/
noncomputable def Vec3.mulScalar (v : Vec3) (c : ℝ) : Vec3 :=
  ⟨v.x * c, v.y * c, v.z * c⟩

/-- nalgebra `normalize`: divide by the Euclidean norm. -/
noncomputable def Vec3.normalize (v : Vec3) : Vec3 :=
  ⟨v.x / Real.sqrt (v.x ^ 2 + v.y ^ 2 + v.z ^ 2),
   v.y / Real.sqrt (v.x ^ 2 + v.y ^ 2 + v.z ^ 2),
   v.z / Real.sqrt (v.x ^ 2 + v.y ^ 2 + v.z ^ 2)⟩

/-- `f64::to_radians`: multiply by `pi / 180`. -/
noncomputable def toRadians (d : ℝ) : ℝ :=
  d * (Real.pi / 180)

/-- `Player` from `src/sim/player/mod.rs` (lines 97-109). -/
structure Player where
  pos : Vec3
  yaw : ℝ
  pitch : ℝ
  render_distance : ℕ
  keys : PlayerControls
  id : ℕ
  active : Bool

/-- `Player::mv_direction` (player/mod.rs lines 172-175): the normalized
horizontal direction derived from `yaw + angle`. -/
noncomputable def Player.mv_direction (p : Player) (angle : ℝ) : Vec3 :=
  Vec3.normalize ⟨-Real.sin (toRadians (p.yaw + angle)), 0,
    -Real.cos (toRadians (p.yaw + angle))⟩

/-- `Player::get_pos` (player/mod.rs lines 177-179). -/
def Player.get_pos (p : Player) : PlayerPos :=
  ⟨p.pos.x, p.pos.y, p.pos.z⟩

/-- The movement section of `Player::tick` (player/mod.rs lines 134-157):
speedup from `Control`, then the six movement keys applied in source
order to the position. -/
noncomputable def Player.movePhase (p : Player) (dt : ℝ) (config : Config) : Player :=
  let speedup : ℝ := if p.keys.pressed PlayerKey.Control then config.ctrl_speedup else 1
  let pos1 := if p.keys.pressed PlayerKey.Forward then
      Vec3.add p.pos (Vec3.mulScalar (Vec3.smul speedup (p.mv_direction 0)) (config.player_speed * dt))
    else p.pos
  let pos2 := if p.keys.pressed PlayerKey.Left then
      Vec3.add pos1 (Vec3.mulScalar (Vec3.smul speedup (p.mv_direction 90)) (config.player_speed * dt))
    else pos1
  let pos3 := if p.keys.pressed PlayerKey.Backward then
      Vec3.add pos2 (Vec3.mulScalar (Vec3.smul speedup (p.mv_direction 180)) (config.player_speed * dt))
    else pos2
  let pos4 := if p.keys.pressed PlayerKey.Right then
      Vec3.add pos3 (Vec3.mulScalar (Vec3.smul speedup (p.mv_direction 270)) (config.player_speed * dt))
    else pos3
  let pos5 := if p.keys.pressed PlayerKey.Up then
      ⟨pos4.x, pos4.y + speedup * config.player_speed * dt, pos4.z⟩
    else pos4
  let pos6 := if p.keys.pressed PlayerKey.Down then
      ⟨pos5.x, pos5.y - speedup * config.player_speed * dt, pos5.z⟩
    else pos5
  { p with pos := pos6 }

/-- `Player::handle_hit` (player/mod.rs lines 125-127): set the block at
the player's current chunk and inner position to block id `0`. -/
noncomputable def Player.handle_hit (p : Player) (_dt : ℝ) (_config : Config) (world : ChunkMap) : ChunkMap :=
  ChunkMap.set world (p.get_pos).chunk_pos (p.get_pos).inner_chunk_pos 0

/-- `Player::tick` (player/mod.rs lines 129-170): skip inactive players;
save the old position; apply movement; on `Hit` mutate the world; then
restore the old position if the destination chunk is absent from the
registry or still `Generating`. -/
noncomputable def Player.tick (p : Player) (dt : ℝ) (config : Config) (world : ChunkMap) : Player × ChunkMap :=
  if !p.active then (p, world) else
  let p1 := p.movePhase dt config
  let world1 := if p1.keys.pressed PlayerKey.Hit then p1.handle_hit dt config world else world
  let chunk_pos := (p1.get_pos).chunk_pos
  if !(ChunkMap.contains_key world1 chunk_pos) then ({ p1 with pos := p.pos }, world1)
  else if isGenerating (ChunkMap.get world1 chunk_pos) then ({ p1 with pos := p.pos }, world1)
  else (p1, world1)

/-- Modelled from the spec: the Client→Server messages of the
Input→Network channel (`core::messages` is not under `src/`); the
`SetRenderDistance` send itself is at input/mod.rs line 342. -/
inductive ToNetwork where
  | SetRenderDistance (n : ℕ)
  | RequestChunk (pos : ChunkPos)
  | PlayerInputSnapshot (keys : ℕ) (yaw : ℝ) (pitch : ℝ)
  | BlockChange (pos : BlockPos) (id : BlockId)

/-- The cobalt configuration fields set by `InputImpl::new`
(input/mod.rs lines 249-255). -/
structure CobaltConfig where
  send_rate : ℕ
  packet_max_size : ℕ

/-- The observable initialisation effects of `InputImpl::new`
(input/mod.rs lines 184-380) that the claims mention. -/
structure InputInit where
  cobalt_config : CobaltConfig
  ticker_rate : ℕ
  startup_network_msgs : List ToNetwork

/-- `InputImpl::new` (input/mod.rs): the cobalt config is built with
`send_rate: config.tick_rate` (line 250), the single Input→Network send
during startup is `SetRenderDistance` (line 342), and the camera ticker
is built with `Ticker::from_tick_rate(30)` (line 378). -/
def InputImpl.new (config : Config) : InputInit :=
  ⟨⟨config.tick_rate, 576⟩, 30, [ToNetwork.SetRenderDistance config.render_distance]⟩

/-- The Input→Network channel trace: the startup messages sent inside
`InputImpl::new`, followed by whatever messages the main loop emits. -/
def clientNetworkTrace (config : Config) (loopMsgs : List ToNetwork) : List ToNetwork :=
  (InputImpl.new config).startup_network_msgs ++ loopMsgs

/-- The eight phases of the client main loop in `start`
(input/mod.rs lines 62-91). -/
inductive Phase where
  | process_events
  | center_cursor
  | process_messages
  | move_camera
  | fetch_close_chunks
  | process_chunk_messages
  | render
  | update_frame_count
deriving DecidableEq

/-- The loop body of `start` (input/mod.rs lines 65-90): the phase
methods called on the implementation, in source order. -/
def loopPhases : List Phase :=
  [Phase.process_events, Phase.center_cursor, Phase.process_messages,
   Phase.move_camera, Phase.fetch_close_chunks, Phase.process_chunk_messages,
   Phase.render, Phase.update_frame_count]

/-- One iteration of the loop body over an abstract implementation
state: each phase method updates the state, in source order. -/
def runBody {S : Type} (step : Phase → S → S) (s : S) : S :=
  loopPhases.foldl (fun t ph => step ph t) s

/-- `start` (input/mod.rs lines 62-91) as a trace of executed phases,
with fuel bounding the number of iterations observed: while
`keep_running` holds the eight phases run, then the loop repeats. -/
def startTrace {S : Type} (keep : S → Bool) (step : Phase → S → S) : ℕ → S → List Phase
  | 0, _ => []
  | n + 1, s => if keep s then loopPhases ++ startTrace keep step n (runBody step s) else []

/-- The implementation state after `k` full loop iterations. -/
def loopIterate {S : Type} (step : Phase → S → S) : ℕ → S → S
  | 0, s => s
  | n + 1, s => loopIterate step n (runBody step s)

/-- Concrete config for counterexamples: `tick_rate = 30`,
`render_distance = 10`, `player_speed = 1`, `ctrl_speedup = 10`. -/
noncomputable def cexConfig : Config :=
  ⟨30, 10, 1, 10⟩

/-- Concrete config with a non-default `tick_rate` of 60. -/
noncomputable def cexConfig60 : Config :=
  ⟨60, 10, 1, 1⟩

/-- Concrete player at the origin holding only the `Up` key. -/
noncomputable def cexPlayerUp : Player :=
  ⟨⟨0, 0, 0⟩, 0, 0, 0, PlayerControls.ofKey PlayerKey.Up, 0, true⟩

/-- Concrete player at the origin holding only the `Hit` key. -/
noncomputable def cexPlayerHit : Player :=
  ⟨⟨0, 0, 0⟩, 0, 0, 0, PlayerControls.ofKey PlayerKey.Hit, 0, true⟩

/-- Concrete registry holding one chunk, at the origin, still
`Incomplete`. -/
def cexWorldIncomplete : ChunkMap :=
  ⟨[(⟨0, 0, 0⟩, ChunkState.Incomplete)]⟩

/-- The empty registry. -/
def emptyChunkMap : ChunkMap :=
  ⟨[]⟩


theorem low_component_cast (t : ℤ) :
    ((i64AsU8 t % CHUNK_SIZE : ℕ) : ℤ) = t % (CHUNK_SIZE : ℤ) := by
  have h256 : (0 : ℤ) ≤ t % 256 := Int.emod_nonneg t (by norm_num)
  have : ((i64AsU8 t : ℕ) : ℤ) = t % 256 := Int.toNat_of_nonneg h256
  calc ((i64AsU8 t % CHUNK_SIZE : ℕ) : ℤ)
      = ((i64AsU8 t : ℕ) : ℤ) % ((CHUNK_SIZE : ℕ) : ℤ) := by push_cast; ring_nf
    _ = (t % 256) % (CHUNK_SIZE : ℤ) := by rw [this]
    _ = t % (CHUNK_SIZE : ℤ) := Int.emod_emod_of_dvd t (by norm_num [CHUNK_SIZE])

theorem fdiv_mul_add_emod (t : ℤ) :
    t.fdiv (CHUNK_SIZE : ℤ) * (CHUNK_SIZE : ℤ) + t % (CHUNK_SIZE : ℤ) = t := by
  rw [Int.fdiv_eq_ediv t (by norm_num [CHUNK_SIZE] : (0:ℤ) ≤ (CHUNK_SIZE : ℤ))]
  exact Int.ediv_add_emod' t _

theorem chunkCoordOf_eq_fdiv (t : ℤ) :
    chunkCoordOf t = t.fdiv (CHUNK_SIZE : ℤ) := by
  unfold chunkCoordOf
  show t.tdiv 32 - (if t.tmod 32 < 0 then 1 else 0) = t.fdiv 32
  cases t with
  | ofNat n =>
    have ha : (0 : ℤ) ≤ Int.ofNat n := Int.ofNat_nonneg n
    rw [Int.tdiv_eq_ediv ha (by norm_num), Int.fdiv_eq_ediv _ (by norm_num : (0:ℤ) ≤ 32),
      Int.tmod_eq_emod ha (by norm_num)]
    have hnn : ¬ ((Int.ofNat n) % 32 < 0) := not_lt.mpr (Int.emod_nonneg _ (by norm_num))
    simp [hnn]
    omega
  | negSucc n =>
    have h1 : (Int.negSucc n).tdiv 32 = -Int.ofNat ((n + 1) / 32) := rfl
    have h2 : (Int.negSucc n).tmod 32 = -Int.ofNat ((n + 1) % 32) := rfl
    have h3 : (Int.negSucc n).fdiv 32 = Int.negSucc (n / 32) := rfl
    rw [h1, h2, h3]
    rw [Int.negSucc_eq]
    split_ifs with h
    · simp only [Int.ofNat_eq_coe] at *
      omega
    · simp only [Int.ofNat_eq_coe] at *
      omega

/-- C1: the `BlockPos` to `(ChunkPos, InnerChunkPos)` decomposition via
`SubIndex<ChunkPos>` reconstructs the block position componentwise, the
low part lies in `[0, CHUNK_SIZE)` with `CHUNK_SIZE = 32`, and on
`BlockPos(-1,-1,-1)` it yields `ChunkPos(-1,-1,-1)` with low part
`(CHUNK_SIZE-1, CHUNK_SIZE-1, CHUNK_SIZE-1)`. -/
theorem C1_block_decomposition (b : BlockPos) :
    (CHUNK_SIZE = 32)
    ∧ ((b.high).x * (CHUNK_SIZE : ℤ) + ((b.low).x : ℤ) = b.x
       ∧ (b.high).y * (CHUNK_SIZE : ℤ) + ((b.low).y : ℤ) = b.y
       ∧ (b.high).z * (CHUNK_SIZE : ℤ) + ((b.low).z : ℤ) = b.z)
    ∧ ((b.low).x < CHUNK_SIZE ∧ (b.low).y < CHUNK_SIZE ∧ (b.low).z < CHUNK_SIZE)
    ∧ BlockPos.high ⟨-1, -1, -1⟩ = (⟨-1, -1, -1⟩ : ChunkPos)
    ∧ BlockPos.low ⟨-1, -1, -1⟩ =
        (⟨CHUNK_SIZE - 1, CHUNK_SIZE - 1, CHUNK_SIZE - 1⟩ : InnerChunkPos) := by
  refine ⟨rfl, ⟨?_, ?_, ?_⟩, ⟨?_, ?_, ?_⟩, ?_, ?_⟩
  · rw [BlockPos.high, BlockPos.low]
    simp only
    rw [low_component_cast]
    exact fdiv_mul_add_emod b.x
  · rw [BlockPos.high, BlockPos.low]
    simp only
    rw [low_component_cast]
    exact fdiv_mul_add_emod b.y
  · rw [BlockPos.high, BlockPos.low]
    simp only
    rw [low_component_cast]
    exact fdiv_mul_add_emod b.z
  · exact Nat.mod_lt _ (by norm_num [CHUNK_SIZE])
  · exact Nat.mod_lt _ (by norm_num [CHUNK_SIZE])
  · exact Nat.mod_lt _ (by norm_num [CHUNK_SIZE])
  · decide
  · decide

/-- C5: `ChunkPos::orthogonal_dist` is the Chebyshev distance
`max(|dx|,|dy|,|dz|)` of the componentwise differences; it is symmetric
and vanishes exactly on equal chunk positions. -/
theorem C5_orthogonal_dist_chebyshev (a b : ChunkPos) :
    a.orthogonal_dist b = chebyshevDist a b
    ∧ a.orthogonal_dist b = b.orthogonal_dist a
    ∧ (a.orthogonal_dist b = 0 ↔ a = b) := by
  have hx := ChunkPos.mk.injEq a.x a.y a.z b.x b.y b.z
  obtain ⟨ax, ay, az⟩ := a
  obtain ⟨bx, by', bz⟩ := b
  simp only [ChunkPos.orthogonal_dist, chebyshevDist, ChunkPos.mk.injEq] at *
  rw [Int.abs_eq_natAbs, Int.abs_eq_natAbs, Int.abs_eq_natAbs,
    Int.abs_eq_natAbs, Int.abs_eq_natAbs, Int.abs_eq_natAbs]
  constructor
  · omega
  · constructor
    · omega
    · omega

/-- C9: the truncate-plus-sign-correction in `PlayerPos::chunk_pos`
agrees with `div_floor` on every truncated integer coordinate, and hence
`PlayerPos::chunk_pos` equals the two-step route `WorldPos::high`
followed by `BlockPos::high` on positions with the same components. -/
theorem C9_chunk_pos_refinement :
    (∀ t : ℤ, chunkCoordOf t = t.fdiv (CHUNK_SIZE : ℤ))
    ∧ ∀ p : PlayerPos,
        p.chunk_pos = BlockPos.high (WorldPos.high ⟨p.x, p.y, p.z⟩) := by
  constructor
  · exact chunkCoordOf_eq_fdiv
  · intro p
    simp only [PlayerPos.chunk_pos, WorldPos.high, BlockPos.high,
      chunkCoordOf_eq_fdiv]

theorem trunc_component (v : ℝ) :
    (f64AsI64 v).fdiv (CHUNK_SIZE : ℤ) * (CHUNK_SIZE : ℤ)
      + ((i64AsU8 (f64AsI64 v) % CHUNK_SIZE : ℕ) : ℤ) = f64AsI64 v := by
  rw [low_component_cast]
  exact fdiv_mul_add_emod _

theorem trunc_frac_bounds (v : ℝ) :
    -1 < v - (f64AsI64 v : ℝ) ∧ v - (f64AsI64 v : ℝ) < 1
    ∧ (0 ≤ v → f64AsI64 v = ⌊v⌋ ∧ 0 ≤ v - (f64AsI64 v : ℝ)) := by
  unfold f64AsI64
  split_ifs with h
  · refine ⟨?_, ?_, fun _ => ⟨rfl, ?_⟩⟩
    · have := Int.floor_le v
      linarith
    · have := Int.floor_le v
      have h1 : v - (⌊v⌋ : ℝ) < 1 := by
        have := Int.lt_floor_add_one v
        linarith
      exact h1
    · have := Int.floor_le v
      linarith
  · refine ⟨?_, ?_, fun h0 => absurd h0 h⟩
    · have := Int.ceil_lt_add_one v
      linarith
    · have := Int.le_ceil v
      have h1 : ¬ 0 ≤ v := h
      push_neg at h1
      have : (0:ℝ) ≤ (⌈v⌉ : ℝ) - v := by
        have := Int.le_ceil v
        linarith
      linarith

/-- C2 counterexample: at `WorldPos(-1/2, -1/2, -1/2)` the integer part
produced by `WorldPos::high` is `0`, while the componentwise floor is
`-1`, and the fractional remainder `low()` is negative, outside `[0,1)`:
the cast `f64 as i64` truncates toward zero instead of flooring. -/
theorem C2_floor_semantics_cex :
    WorldPos.high ⟨-(1/2), -(1/2), -(1/2)⟩ = (⟨0, 0, 0⟩ : BlockPos)
    ∧ ⌊(-(1/2) : ℝ)⌋ = -1
    ∧ (WorldPos.low ⟨-(1/2), -(1/2), -(1/2)⟩).x < 0 := by
  have hceil : f64AsI64 (-(1/2) : ℝ) = 0 := by
    unfold f64AsI64
    rw [if_neg (by norm_num)]
    rw [Int.ceil_eq_iff]
    constructor <;> norm_num
  refine ⟨?_, ?_, ?_⟩
  · simp only [WorldPos.high, hceil]
  · rw [Int.floor_eq_iff]
    constructor <;> norm_num
  · simp only [WorldPos.low, WorldPos.high, hceil]
    norm_num

/-- C2 (amended): for every `WorldPos w` the decomposition
`w = (chunk * CHUNK_SIZE + inner) + fractional` holds componentwise,
where the integer part produced by `WorldPos::high` is the truncation of
`w` toward zero (so the fractional remainder of `low()` lies in `(-1,1)`,
and only for nonnegative components is the integer part the floor with
remainder in `[0,1)`). -/
theorem C2_world_decomposition_trunc (w : WorldPos) :
    ((((w.high.high).x * (CHUNK_SIZE : ℤ) + ((w.high.low).x : ℤ) : ℤ) : ℝ) + (w.low).x = w.x
      ∧ (((w.high.high).y * (CHUNK_SIZE : ℤ) + ((w.high.low).y : ℤ) : ℤ) : ℝ) + (w.low).y = w.y
      ∧ (((w.high.high).z * (CHUNK_SIZE : ℤ) + ((w.high.low).z : ℤ) : ℤ) : ℝ) + (w.low).z = w.z)
    ∧ (-1 < (w.low).x ∧ (w.low).x < 1
      ∧ -1 < (w.low).y ∧ (w.low).y < 1
      ∧ -1 < (w.low).z ∧ (w.low).z < 1)
    ∧ (0 ≤ w.x → (w.high).x = ⌊w.x⌋ ∧ 0 ≤ (w.low).x)
    ∧ (0 ≤ w.y → (w.high).y = ⌊w.y⌋ ∧ 0 ≤ (w.low).y)
    ∧ (0 ≤ w.z → (w.high).z = ⌊w.z⌋ ∧ 0 ≤ (w.low).z) := by
  obtain ⟨wx, wy, wz⟩ := w
  simp only [WorldPos.high, WorldPos.low, BlockPos.high, BlockPos.low]
  refine ⟨⟨?_, ?_, ?_⟩, ?_, ?_, ?_, ?_⟩
  · rw [trunc_component wx]; ring
  · rw [trunc_component wy]; ring
  · rw [trunc_component wz]; ring
  · exact ⟨(trunc_frac_bounds wx).1, (trunc_frac_bounds wx).2.1,
      (trunc_frac_bounds wy).1, (trunc_frac_bounds wy).2.1,
      (trunc_frac_bounds wz).1, (trunc_frac_bounds wz).2.1⟩
  · exact (trunc_frac_bounds wx).2.2
  · exact (trunc_frac_bounds wy).2.2
  · exact (trunc_frac_bounds wz).2.2

/-- C2 witness: the nonnegative-component clause of the amended claim,
instantiated at `WorldPos(1, 1, 1)`. -/
theorem C2_world_decomposition_witness :
    0 ≤ (1 : ℝ)
    ∧ (WorldPos.high ⟨1, 1, 1⟩).x = ⌊(1 : ℝ)⌋ := by
  refine ⟨by norm_num, ?_⟩
  exact ((C2_world_decomposition_trunc ⟨1, 1, 1⟩).2.2.1 (by norm_num)).1

/-- C6 counterexample: with `tick_rate = 60` the cobalt send-rate is 60
but the camera ticker is still constructed at 30, so the ticker is not
constructed at the rate given by `config.tick_rate`. -/
theorem C6_ticker_rate_cex :
    cexConfig60.tick_rate = 60
    ∧ (InputImpl.new cexConfig60).cobalt_config.send_rate = 60
    ∧ (InputImpl.new cexConfig60).ticker_rate = 30
    ∧ (InputImpl.new cexConfig60).ticker_rate ≠ cexConfig60.tick_rate := by
  refine ⟨rfl, rfl, rfl, ?_⟩
  intro h
  exact absurd h (by decide)

/-- C6 (amended): `InputImpl::new` builds the cobalt configuration with
the network send-rate equal to `config.tick_rate`, but constructs the
per-frame camera `Ticker` at the fixed rate 30 Hz, independent of the
configuration; the two agree exactly when `tick_rate` is the default
value 30. -/
theorem C6_ticker_rate (config : Config) :
    (InputImpl.new config).cobalt_config.send_rate = config.tick_rate
    ∧ (InputImpl.new config).ticker_rate = 30
    ∧ ((InputImpl.new config).ticker_rate = config.tick_rate ↔ config.tick_rate = 30) :=
  ⟨rfl, rfl, eq_comm⟩

/-- C7: while `keep_running` stays true, every iteration of the client
main loop executes exactly the eight phases event drain, cursor
recenter, message drain, camera tick, chunk streaming, pending drain,
render and frame accounting, in this order and no other. -/
theorem C7_main_loop_phases {S : Type} (keep : S → Bool) (step : Phase → S → S)
    (n : ℕ) (s : S) (h : ∀ k, k < n → keep (loopIterate step k s) = true) :
    startTrace keep step n s =
      List.flatten (List.replicate n
        [Phase.process_events, Phase.center_cursor, Phase.process_messages,
         Phase.move_camera, Phase.fetch_close_chunks, Phase.process_chunk_messages,
         Phase.render, Phase.update_frame_count]) := by
  induction n generalizing s with
  | zero => rfl
  | succ n ih =>
    have h0 : keep s = true := h 0 (Nat.succ_pos n)
    have hrest : ∀ k, k < n → keep (loopIterate step k (runBody step s)) = true := by
      intro k hk
      exact h (k + 1) (Nat.succ_lt_succ hk)
    show (if keep s then loopPhases ++ startTrace keep step n (runBody step s) else []) = _
    rw [if_pos h0, List.replicate_succ, List.flatten_cons, ih (runBody step s) hrest]
    rfl

/-- C7 witness: two iterations of the loop over a concrete state. -/
theorem C7_main_loop_phases_witness :
    (∀ k, k < 2 → (fun _ : ℕ => true) (loopIterate (fun _ t => t + 1) k 0) = true)
    ∧ startTrace (fun _ : ℕ => true) (fun _ t => t + 1) 2 0 =
      List.flatten (List.replicate 2
        [Phase.process_events, Phase.center_cursor, Phase.process_messages,
         Phase.move_camera, Phase.fetch_close_chunks, Phase.process_chunk_messages,
         Phase.render, Phase.update_frame_count]) :=
  ⟨fun _ _ => rfl,
   C7_main_loop_phases (fun _ : ℕ => true) (fun _ t => t + 1) 2 0 (fun _ _ => rfl)⟩

/-- C8: on the Input→Network channel, the startup `SetRenderDistance`
message sent inside `InputImpl::new` precedes every `RequestChunk`
message the main loop can emit, whatever the loop emits. -/
theorem C8_set_render_distance_first (config : Config) (loopMsgs : List ToNetwork)
    (j : ℕ) (pos : ChunkPos)
    (h : (clientNetworkTrace config loopMsgs).get? j = some (ToNetwork.RequestChunk pos)) :
    ∃ i, i < j ∧ (clientNetworkTrace config loopMsgs).get? i
        = some (ToNetwork.SetRenderDistance config.render_distance) := by
  refine ⟨0, ?_, rfl⟩
  cases j with
  | zero =>
    have h0 : (clientNetworkTrace config loopMsgs).get? 0
        = some (ToNetwork.SetRenderDistance config.render_distance) := rfl
    rw [h0] at h
    exact absurd (Option.some.inj h) (by intro hh; cases hh)
  | succ j => exact Nat.succ_pos j

/-- C8 witness: a loop that emits one chunk request after startup. -/
theorem C8_set_render_distance_first_witness :
    (clientNetworkTrace cexConfig [ToNetwork.RequestChunk ⟨0, 0, 0⟩]).get? 1
      = some (ToNetwork.RequestChunk ⟨0, 0, 0⟩)
    ∧ ∃ i, i < 1 ∧ (clientNetworkTrace cexConfig [ToNetwork.RequestChunk ⟨0, 0, 0⟩]).get? i
        = some (ToNetwork.SetRenderDistance cexConfig.render_distance) :=
  ⟨rfl, C8_set_render_distance_first cexConfig [ToNetwork.RequestChunk ⟨0, 0, 0⟩] 1 ⟨0, 0, 0⟩ rfl⟩

/-- C4: player translation is derived from yaw alone.  Two players that
differ only in pitch produce the same post-tick position and the same
post-tick world, `mv_direction` is unchanged under a pitch change, and
the direction it returns has no vertical (pitch-driven) component. -/
theorem C4_pitch_independent (p : Player) (a b dt : ℝ) (config : Config) (world : ChunkMap) :
    ((Player.tick { p with pitch := a } dt config world).1.pos
        = (Player.tick { p with pitch := b } dt config world).1.pos
      ∧ (Player.tick { p with pitch := a } dt config world).2
        = (Player.tick { p with pitch := b } dt config world).2)
    ∧ (∀ angle, Player.mv_direction { p with pitch := a } angle = Player.mv_direction p angle)
    ∧ (∀ angle, (Player.mv_direction p angle).y = 0) := by
  have hm : Player.movePhase { p with pitch := a } dt config
      = { Player.movePhase { p with pitch := b } dt config with pitch := a } := rfl
  refine ⟨?_, fun angle => rfl, fun angle => ?_⟩
  · simp only [Player.tick, hm]
    split_ifs <;> simp_all [Player.handle_hit, Player.get_pos]
  · show (0 : ℝ) / _ = 0
    exact zero_div _

/-- C3 (amended): `Player::tick` saves the pre-tick position and, after
movement, restores it whenever the destination chunk (the chunk of the
moved position) is not a key of the `ChunkMap` or is present but still
`Generating` — a present chunk that is merely `Incomplete` does not
trigger the restore; consequently after any tick the player's chunk
position is present in the map or the player's position equals its
pre-tick value. -/
theorem C3_soft_wall (p : Player) (dt : ℝ) (config : Config) (world : ChunkMap) :
    (p.active = true →
      (ChunkMap.contains_key (Player.tick p dt config world).2
          ((Player.movePhase p dt config).get_pos.chunk_pos) = false
        ∨ isGenerating (ChunkMap.get (Player.tick p dt config world).2
          ((Player.movePhase p dt config).get_pos.chunk_pos)) = true) →
      (Player.tick p dt config world).1.pos = p.pos)
    ∧ (ChunkMap.contains_key (Player.tick p dt config world).2
          ((Player.tick p dt config world).1.get_pos.chunk_pos) = true
        ∨ (Player.tick p dt config world).1.pos = p.pos) := by
  cases hact : p.active with
  | false =>
    simp only [Player.tick, hact]
    constructor
    · intro h
      cases h
    · right
      rfl
  | true =>
    simp only [Player.tick, hact]
    split_ifs with h1 h2 <;> simp_all [Player.get_pos]

theorem cexPlayerUp_move :
    Player.movePhase cexPlayerUp 1 cexConfig = { cexPlayerUp with pos := ⟨0, 1, 0⟩ } := by
  have hC : cexPlayerUp.keys.pressed PlayerKey.Control = false := by decide
  have hF : cexPlayerUp.keys.pressed PlayerKey.Forward = false := by decide
  have hL : cexPlayerUp.keys.pressed PlayerKey.Left = false := by decide
  have hB : cexPlayerUp.keys.pressed PlayerKey.Backward = false := by decide
  have hR : cexPlayerUp.keys.pressed PlayerKey.Right = false := by decide
  have hU : cexPlayerUp.keys.pressed PlayerKey.Up = true := by decide
  have hD : cexPlayerUp.keys.pressed PlayerKey.Down = false := by decide
  simp only [Player.movePhase, hC, hF, hL, hB, hR, hU, hD]
  simp only [Bool.false_eq_true, if_false, if_true]
  show ({ cexPlayerUp with
    pos := ⟨cexPlayerUp.pos.x, cexPlayerUp.pos.y + 1 * cexConfig.player_speed * 1, cexPlayerUp.pos.z⟩ } : Player) = _
  have hy : (cexPlayerUp.pos.y + 1 * cexConfig.player_speed * 1 : ℝ) = 1 := by
    show ((0 : ℝ) + 1 * 1 * 1 : ℝ) = 1
    norm_num
  rw [hy]
  rfl

theorem cexPlayerUp_chunk :
    PlayerPos.chunk_pos (Player.get_pos { cexPlayerUp with pos := ⟨0, 1, 0⟩ }) = ⟨0, 0, 0⟩ := by
  have h0 : f64AsI64 (0 : ℝ) = 0 := by
    unfold f64AsI64
    rw [if_pos le_rfl]
    exact Int.floor_zero
  have h1 : f64AsI64 (1 : ℝ) = 1 := by
    unfold f64AsI64
    rw [if_pos zero_le_one]
    exact Int.floor_one
  show PlayerPos.chunk_pos ⟨0, 1, 0⟩ = ⟨0, 0, 0⟩
  simp only [PlayerPos.chunk_pos, h0, h1]
  decide

theorem cexPlayerUp_tick :
    Player.tick cexPlayerUp 1 cexConfig cexWorldIncomplete
      = ({ cexPlayerUp with pos := ⟨0, 1, 0⟩ }, cexWorldIncomplete) := by
  have hact : (!cexPlayerUp.active) = false := by decide
  have hkeys : ({ cexPlayerUp with pos := (⟨0, 1, 0⟩ : Vec3) } : Player).keys.pressed PlayerKey.Hit = false := by
    decide
  have hcont : ChunkMap.contains_key cexWorldIncomplete ⟨0, 0, 0⟩ = true := by decide
  have hgen : isGenerating (ChunkMap.get cexWorldIncomplete ⟨0, 0, 0⟩) = false := rfl
  simp only [Player.tick, hact, Bool.false_eq_true, if_false]
  rw [cexPlayerUp_move]
  rw [cexPlayerUp_chunk]
  simp only [hkeys, Bool.false_eq_true, if_false, hcont, hgen, Bool.not_true]

theorem cexPlayerUp_tick_empty :
    Player.tick cexPlayerUp 1 cexConfig emptyChunkMap = (cexPlayerUp, emptyChunkMap) := by
  have hact : (!cexPlayerUp.active) = false := by decide
  have hkeys : ({ cexPlayerUp with pos := (⟨0, 1, 0⟩ : Vec3) } : Player).keys.pressed PlayerKey.Hit = false := by
    decide
  have hcont : (!ChunkMap.contains_key emptyChunkMap ⟨0, 0, 0⟩) = true := by decide
  simp only [Player.tick, hact, Bool.false_eq_true, if_false]
  rw [cexPlayerUp_move]
  rw [cexPlayerUp_chunk]
  simp only [hkeys, Bool.false_eq_true, if_false, hcont, if_true]

/-- C3 counterexample: the player holding `Up` moves from the origin to
`(0,1,0)`; the destination chunk `(0,0,0)` is present in the registry
but still `Incomplete`, yet `Player::tick` does not restore the old
position (the code only restores on the `Generating` state), and the map
is unchanged. -/
theorem C3_soft_wall_cex :
    ChunkMap.get cexWorldIncomplete
        ((Player.tick cexPlayerUp 1 cexConfig cexWorldIncomplete).1.get_pos.chunk_pos)
      = some ChunkState.Incomplete
    ∧ (Player.tick cexPlayerUp 1 cexConfig cexWorldIncomplete).2 = cexWorldIncomplete
    ∧ (Player.tick cexPlayerUp 1 cexConfig cexWorldIncomplete).1.pos ≠ cexPlayerUp.pos := by
  refine ⟨?_, ?_, ?_⟩
  · rw [cexPlayerUp_tick]
    show ChunkMap.get cexWorldIncomplete
        (PlayerPos.chunk_pos (Player.get_pos { cexPlayerUp with pos := ⟨0, 1, 0⟩ })) = _
    rw [cexPlayerUp_chunk]
    rfl
  · rw [cexPlayerUp_tick]
  · rw [cexPlayerUp_tick]
    show (⟨0, 1, 0⟩ : Vec3) ≠ cexPlayerUp.pos
    intro h
    have h1 : (1 : ℝ) = 0 := congrArg Vec3.y h
    norm_num at h1

/-- C3 witness: with an empty registry the destination chunk is absent,
so the amended claim forces the restore: the post-tick position equals
the pre-tick one. -/
theorem C3_soft_wall_witness :
    cexPlayerUp.active = true
    ∧ (Player.tick cexPlayerUp 1 cexConfig emptyChunkMap).1.pos = cexPlayerUp.pos := by
  refine ⟨rfl, ?_⟩
  refine (C3_soft_wall cexPlayerUp 1 cexConfig emptyChunkMap).1 rfl (Or.inl ?_)
  rw [cexPlayerUp_tick_empty]
  rfl

/-- C10: when `Hit` is pressed on an active player, the world returned
by `Player::tick` is the input map with the block at the post-movement
`(chunk_pos, inner_chunk_pos)` set to block id 0, whether or not the
position was subsequently restored, and the returned player is either
the moved player or the moved player with only its position restored to
the pre-tick value. -/
theorem C10_hit_persists (p : Player) (dt : ℝ) (config : Config) (world : ChunkMap)
    (hact : p.active = true) (hhit : p.keys.pressed PlayerKey.Hit = true) :
    ((Player.tick p dt config world).2
        = ChunkMap.set world ((Player.movePhase p dt config).get_pos.chunk_pos)
            ((Player.movePhase p dt config).get_pos.inner_chunk_pos) 0)
    ∧ ((Player.tick p dt config world).1 = Player.movePhase p dt config
        ∨ (Player.tick p dt config world).1
            = { Player.movePhase p dt config with pos := p.pos }) := by
  have hkeys : (Player.movePhase p dt config).keys = p.keys := rfl
  simp only [Player.tick, Player.handle_hit, hact, hkeys, hhit, Bool.not_true,
    Bool.false_eq_true, if_false, if_true]
  split_ifs <;> simp [Player.get_pos]

/-- C10 witness: an active player holding only `Hit` over the empty
registry; the returned world is the (trivial) block write on the empty
map. -/
theorem C10_hit_persists_witness :
    cexPlayerHit.active = true
    ∧ cexPlayerHit.keys.pressed PlayerKey.Hit = true
    ∧ (Player.tick cexPlayerHit 1 cexConfig emptyChunkMap).2
        = ChunkMap.set emptyChunkMap
            ((Player.movePhase cexPlayerHit 1 cexConfig).get_pos.chunk_pos)
            ((Player.movePhase cexPlayerHit 1 cexConfig).get_pos.inner_chunk_pos) 0 :=
  ⟨rfl, by decide, (C10_hit_persists cexPlayerHit 1 cexConfig emptyChunkMap rfl (by decide)).1⟩
